import Mathlib

/-!
Shallow embedding of the dewy router (src/router.ts) and its CORS middleware
(src/middlewares/cors.ts), together with proofs of the specification claims.

Conventions of the embedding:
* JavaScript exceptions are modelled with `Except Err`; a thrown value is an
  `Err`, `await`-propagation of a rejection is value propagation of `.error`.
* The mutable `Router` object is modelled as an immutable state record that
  registration operations transform.
* The external `URLPattern` matcher (an external collaborator per the spec) is
  modelled for literal hostname/pathname templates: an unset component is a
  wildcard that matches anything, a set component matches by string equality.
  This is the fragment the claims exercise.
* `string | T | T[] | null` parameters that the TypeScript code immediately
  normalizes to an array are modelled directly as lists.
-/

namespace Dewy

/-- The character class of the slash-trimming regexes in src/router.ts. -/
def isSlash (c : Char) : Bool := c == '/'

/-- JavaScript String.prototype.toUpperCase (ASCII case mapping, which covers
every string the router applies it to). -/
def jsToUpperCase (s : String) : String := String.mk (s.data.map Char.toUpper)

/-- JavaScript String.prototype.toLowerCase (ASCII case mapping). -/
def jsToLowerCase (s : String) : String := String.mk (s.data.map Char.toLower)

/-- JavaScript String.prototype.trim: strip whitespace at both ends. -/
def jsTrim (s : String) : String :=
  String.mk (((s.data.dropWhile Char.isWhitespace).reverse.dropWhile
    Char.isWhitespace).reverse)

/-- Remove the leading run of slashes of a character list. -/
def trimL (l : List Char) : List Char := l.dropWhile isSlash

/-- Remove the trailing run of slashes of a character list. -/
def trimR (l : List Char) : List Char := (l.reverse.dropWhile isSlash).reverse

/-- Mirrors the regex replace in src/router.ts normalizePath: remove the
leading run of slashes of a string. -/
def dropSlashesLeft (s : String) : String :=
  String.mk (trimL s.data)

/-- Mirrors the regex replace in src/router.ts joinPath: remove the trailing
run of slashes of a string. -/
def dropSlashesRight (s : String) : String :=
  String.mk (trimR s.data)

/-- src/router.ts normalizePath: strip every leading and trailing slash and
re-attach a single leading slash. -/
def normalizePath (path : String) : String :=
  "/" ++ dropSlashesRight (dropSlashesLeft path)

/-- src/router.ts joinPath: join two path fragments with exactly one slash,
then normalize. -/
def joinPath (path otherPath : String) : String :=
  normalizePath (dropSlashesRight path ++ "/" ++ dropSlashesLeft otherPath)

/-- A path fragment surrounded by `m` leading and `n` trailing slashes
(used to state slash-variation claims). -/
def slashPad (m : Nat) (s : String) (n : Nat) : String :=
  String.mk (List.replicate m '/') ++ s ++ String.mk (List.replicate n '/')

/-- The part of a URL the embedded matcher inspects. -/
structure Url where
  hostname : String
  pathname : String
deriving DecidableEq, Repr

/-- Result of a successful pattern match (URLPatternResult); the claims only
ever use it opaquely, so it records the matched input. -/
structure URLPatternResult where
  input : Url
deriving DecidableEq, Repr

/-- External URLPattern matcher restricted to literal hostname/pathname
templates; an unset component is a wildcard. -/
structure URLPattern where
  hostname : Option String
  pathname : Option String
deriving DecidableEq, Repr

/-- URLPattern.exec: every set component must equal the corresponding URL
component; on success the match result is produced. -/
def URLPattern.exec (p : URLPattern) (url : Url) : Option URLPatternResult :=
  if (p.hostname.all (fun h => h == url.hostname))
      && (p.pathname.all (fun pn => pn == url.pathname)) then
    some ⟨url⟩
  else
    none

/-- src/router.ts PathPattern = string | URLPatternInput | URLPattern.
`input` is a plain URLPatternInput object with optional hostname/pathname. -/
inductive PathPattern where
  | str (path : String)
  | input (hostname : Option String) (pathname : Option String)
  | pattern (p : URLPattern)

/-- The slice of ResponseInit the router consumes (a status for the
Response constructor). -/
structure ResponseInit where
  status : Nat := 200
deriving DecidableEq, Repr

/-- The observable part of a fetch Response: status, body text and headers
(header names are stored lowercased, as the Headers class normalizes them). -/
structure Response where
  status : Nat := 200
  body : Option String := none
  headers : List (String × String) := []
deriving DecidableEq, Repr

/-- Thrown values: ServerError (src/error/server_error.ts, carrying an
optional ResponseInit), RouteNotFoundError (src/error/route_not_found_error.ts)
and any other unclassified thrown value. -/
inductive Err where
  | serverError (message : String) (init : Option ResponseInit)
  | routeNotFound (message : String)
  | other (tag : String)
deriving DecidableEq, Repr

/-- src/router.ts defaultErrorHandler: ServerError echoes message and init,
RouteNotFoundError maps to 404 Not Found, anything else to 500. -/
def defaultErrorHandler : Err → Response
  | .serverError message init =>
    { status := (init.map ResponseInit.status).getD 200, body := some message }
  | .routeNotFound _ => { status := 404, body := some "Not Found" }
  | .other _ => { status := 500, body := some "Internal Server Error" }

/-- The slice of a fetch Request the router and the CORS middleware consume. -/
structure Request where
  method : String
  url : Url
  headers : List (String × String) := []
deriving DecidableEq, Repr

/-- src/router.ts Context; the TypeScript field named `match` is called
`matched` here because `match` is a Lean keyword. -/
structure Context where
  matched : URLPatternResult
  request : Request
deriving DecidableEq, Repr

/-- RouteHandler over an abstract response type ρ (the router code never
inspects the Response it transports); exceptions via Except. -/
abbrev RouteHandler (ρ : Type) := Context → Except Err ρ

/-- MiddlewareNextHandler: `next` takes an optional replacement Context. -/
abbrev MiddlewareNextHandler (ρ : Type) := Option Context → Except Err ρ

/-- MiddlewareHandler: receives the Context and the continuation. -/
abbrev MiddlewareHandler (ρ : Type) :=
  Context → MiddlewareNextHandler ρ → Except Err ρ

/-- src/router.ts internal Group (a scope frame). The TypeScript field named
like the Lean keyword for notation declarations is `basePath` here. The
source declares `domains: string[]`, but normalizePatterns aliases the live
array and pushes a null into it at run time (see normalizePatterns), so the
embedded field carries Option String, none standing for that null; frames
as built from user input hold only some-values. -/
structure Group (ρ : Type) where
  basePath : String
  domains : List (Option String)
  middlewares : List (MiddlewareHandler ρ)

/-- src/router.ts GroupParams; domain and middleware are already in their
normalized array form. -/
structure GroupParams (ρ : Type) where
  basePath : Option String := none
  domain : List String := []
  middleware : List (MiddlewareHandler ρ) := []

/-- src/router.ts normalizePatterns, case by case on the PathPattern variant,
returning the expanded pattern list together with the enclosing frame as the
call leaves it. The source reads `const domains = group?.domains ?? []`,
which ALIASES the live frame\x27s array; `domains.push(null)` on an empty list
therefore mutates the frame in place (only with no frame is the array a
fresh literal and the push local). Two further JavaScript subtleties are
preserved: spreading a prebuilt URLPattern instance copies no own enumerable
properties, so in the branches that spread the pattern a prebuilt instance
contributes only its getter-read pathname and its hostname is lost; and an
empty scope path is falsy in `if (prefix)`. -/
def normalizePatterns {ρ : Type} (group : Option (Group ρ))
    (pattern : PathPattern) : List URLPattern × Option (Group ρ) :=
  let pre : String := match group with
    | some g => g.basePath
    | none => ""
  let domains : List (Option String) := match group with
    | some g => if g.domains.isEmpty then [none] else g.domains
    | none => [none]
  let group2 : Option (Group ρ) := match group with
    | some g => some { g with domains := domains }
    | none => none
  (domains.map (fun domain =>
    if pre ≠ "" then
      match pattern with
      | .str s => { hostname := domain, pathname := some (joinPath pre s) }
      | .input h pn =>
        { hostname := match domain with | some d => some d | none => h,
          pathname := some (joinPath pre (pn.getD "")) }
      | .pattern p =>
        { hostname := domain,
          pathname := some (joinPath pre ((p.pathname).getD "*")) }
    else
      match pattern with
      | .str s => { hostname := domain, pathname := some (normalizePath s) }
      | .input h pn =>
        match domain with
        | some d => { hostname := some d, pathname := pn }
        | none => { hostname := h, pathname := pn }
      | .pattern p =>
        match domain with
        | some d => { hostname := some d, pathname := none }
        | none => p),
  group2)

/-- src/router.ts ALL_METHOD. -/
def ALL_METHOD : List String :=
  ["GET", "HEAD", "POST", "PUT", "DELETE", "OPTIONS", "PATCH"]

/-- src/router.ts RouteParams; method and middleware are already in their
normalized array form. -/
structure RouteParams (ρ : Type) where
  method : List String
  pattern : PathPattern
  middleware : List (MiddlewareHandler ρ) := []

/-- One entry of the route table: (pattern, handler, middleware chain). -/
structure RouteEntry (ρ : Type) where
  pattern : URLPattern
  handler : RouteHandler ρ
  middlewares : List (MiddlewareHandler ρ)

/-- The Router state: scope stack, global middleware list, route table
(an insertion-ordered method-keyed association list, as a JavaScript Map),
and the configured error handler. -/
structure Router (ρ : Type) where
  groups : List (Group ρ) := []
  definedMiddlewares : List (MiddlewareHandler ρ) := []
  routes : List (String × List (RouteEntry ρ)) := []
  errorHandler : Err → ρ

/-- Map.get on the route table: the value stored under a method key, or []
when absent (dispatch applies the same default). -/
def routesGet {ρ : Type} (routes : List (String × List (RouteEntry ρ)))
    (method : String) : List (RouteEntry ρ) :=
  match routes with
  | [] => []
  | (k, v) :: rest => if k = method then v else routesGet rest method

/-- Push one entry onto the list stored under a method key, creating the key
at the end on first use (Map insertion order). -/
def routesAppend {ρ : Type} (routes : List (String × List (RouteEntry ρ)))
    (method : String) (e : RouteEntry ρ) :
    List (String × List (RouteEntry ρ)) :=
  match routes with
  | [] => [(method, [e])]
  | (k, v) :: rest =>
    if k = method then (k, v ++ [e]) :: rest
    else (k, v) :: routesAppend rest method e

/-- Router.use: append to the global middleware list. -/
def Router.use {ρ : Type} (r : Router ρ)
    (middlewares : List (MiddlewareHandler ρ)) : Router ρ :=
  { r with definedMiddlewares := r.definedMiddlewares ++ middlewares }

/-- The frame-building and push half of Router.group: concatenate the top
frame's domains/path/middlewares with the new params and push the frame. -/
def Router.pushGroup {ρ : Type} (r : Router ρ) (params : GroupParams ρ) :
    Router ρ :=
  let lastGroup := r.groups.getLast?
  let g : Group ρ :=
    { domains := ((lastGroup.map Group.domains).getD []) ++ params.domain.map some,
      basePath := joinPath ((lastGroup.map Group.basePath).getD "")
        ((params.basePath).getD ""),
      middlewares :=
        ((lastGroup.map Group.middlewares).getD []) ++ params.middleware }
  { r with groups := r.groups ++ [g] }

/-- src/router.ts Router.group: push the combined frame, run the callback,
pop. The callback returns the updated router state plus an optional thrown
value; exactly as in the source, the pop statement runs only when the
callback returns normally (there is no try/finally around it). -/
def Router.group {ρ : Type} (r : Router ρ) (params : GroupParams ρ)
    (handler : Router ρ → Router ρ × Option Err) : Router ρ × Option Err :=
  let r1 := r.pushGroup params
  match handler r1 with
  | (r2, none) => ({ r2 with groups := r2.groups.dropLast }, none)
  | (r2, some e) => (r2, some e)

/-- Router.group specialized to a callback that cannot throw. -/
def Router.groupRun {ρ : Type} (r : Router ρ) (params : GroupParams ρ)
    (handler : Router ρ → Router ρ) : Router ρ :=
  (r.group params (fun s => (handler s, none))).1

/-- src/router.ts Router.addRoute: for each method token (normalized by
trim and uppercase), read the current top frame, expand the patterns (a
call that can mutate that frame through the domains alias, so the frame the
call leaves behind is written back to the stack), and append one RouteEntry
per expanded pattern carrying the chain globalMiddlewares ++
scopeMiddlewares ++ routeMiddlewares. -/
def Router.addRoute {ρ : Type} (r : Router ρ) (route : RouteParams ρ)
    (fn : RouteHandler ρ) : Router ρ :=
  let middlewares := route.middleware
  route.method.foldl (fun acc m =>
    let group := acc.groups.getLast?
    let chain := acc.definedMiddlewares ++
      ((group.map Group.middlewares).getD []) ++ middlewares
    let np := normalizePatterns group route.pattern
    let acc1 : Router ρ := match np.2 with
      | some g2 => { acc with groups := acc.groups.dropLast ++ [g2] }
      | none => acc
    np.1.foldl (fun acc2 p =>
      { acc2 with
        routes := routesAppend acc2.routes (jsToUpperCase (jsTrim m)) ⟨p, fn, chain⟩ })
      acc1) r

/-- src/router.ts Router.get: registers GET and HEAD. -/
def Router.get {ρ : Type} (r : Router ρ) (pattern : PathPattern)
    (fn : RouteHandler ρ) : Router ρ :=
  r.addRoute { method := ["GET", "HEAD"], pattern := pattern } fn

/-- src/router.ts Router.all: registers every method of ALL_METHOD. -/
def Router.all {ρ : Type} (r : Router ρ) (pattern : PathPattern)
    (fn : RouteHandler ρ) : Router ρ :=
  r.addRoute { method := ALL_METHOD, pattern := pattern } fn

/-- The inner `execute` function of src/router.ts Router.dispatch: an empty
chain invokes the terminal handler; otherwise the head middleware receives the
context and a continuation that recurses on the tail with the replacement
context if one is supplied, the received context otherwise. -/
def execute {ρ : Type} (middlewares : List (MiddlewareHandler ρ))
    (fn : RouteHandler ρ) (ctx : Context) : Except Err ρ :=
  match middlewares with
  | [] => fn ctx
  | middleware :: nextMiddlewares =>
    middleware ctx (fun nextCtx =>
      execute nextMiddlewares fn (nextCtx.getD ctx))

/-- The ordered scan of src/router.ts Router.dispatch: the first entry whose
pattern matches the URL wins. -/
def scanRoutes {ρ : Type} (entries : List (RouteEntry ρ)) (url : Url) :
    Option (RouteEntry ρ × URLPatternResult) :=
  match entries with
  | [] => none
  | e :: rest =>
    match e.pattern.exec url with
    | some m => some (e, m)
    | none => scanRoutes rest url

/-- The body of the try block of Router.dispatch: method lookup, ordered
pattern scan, pipeline execution, RouteNotFoundError when nothing matched. -/
def Router.dispatchTry {ρ : Type} (r : Router ρ) (request : Request) :
    Except Err ρ :=
  let routes := routesGet r.routes (jsToUpperCase request.method)
  match scanRoutes routes request.url with
  | some (e, m) =>
    execute e.middlewares e.handler { matched := m, request := request }
  | none => .error (.routeNotFound "Not Found")

/-- src/router.ts Router.dispatch: the try/catch boundary; any thrown value
is handed to the configured error handler, whose result is the response. -/
def Router.dispatch {ρ : Type} (r : Router ρ) (request : Request) : ρ :=
  match r.dispatchTry request with
  | .ok res => res
  | .error e => r.errorHandler e

/-- Headers.get: header names compare case-insensitively. -/
def headersGet (hs : List (String × String)) (name : String) : Option String :=
  (hs.find? (fun kv => jsToLowerCase kv.1 == jsToLowerCase name)).map Prod.snd

/-- Headers.set: replace the value of an existing header or append a new
entry; names compare case-insensitively, and all lookups go through the
case-insensitive headersGet, so the stored spelling is unobservable. -/
def headersSet (hs : List (String × String)) (name value : String) :
    List (String × String) :=
  if hs.any (fun kv => jsToLowerCase kv.1 == jsToLowerCase name) then
    hs.map (fun kv =>
      if jsToLowerCase kv.1 == jsToLowerCase name then (kv.1, value) else kv)
  else
    hs ++ [(name, value)]

/-- src/middlewares/cors.ts CorsOptions. `maxAge` is carried as its string
rendering (the code only interpolates it); absent/falsy options are `none`
respectively `false`. -/
structure CorsOptions where
  preflightContinue : Bool := false
  allowOrigin : Option (List String) := none
  allowMethods : Option (List String) := none
  allowCredentials : Bool := false
  allowHeaders : Option (List String) := none
  exposeHeaders : Option (List String) := none
  maxAge : Option String := none
  allowPrivateNetwork : Bool := false

/-- src/middlewares/cors.ts DEFAULT_METHODS. -/
def DEFAULT_METHODS : List String :=
  ["GET", "HEAD", "PUT", "PATCH", "POST", "DELETE"]

/-- src/middlewares/cors.ts applyVaryAppend: append to an existing non-empty
Vary header, otherwise set it. -/
def applyVaryAppend (res : Response) (value : String) : Response :=
  let existsVary := (headersGet res.headers "Vary").getD ""
  if existsVary ≠ "" then
    { res with
      headers := headersSet res.headers "Vary" (existsVary ++ ", " ++ value) }
  else
    { res with headers := headersSet res.headers "Vary" value }

/-- src/middlewares/cors.ts applyOrigin: without an allow-list always emit
the wildcard; with one, emit the literal request origin only when listed,
and record Origin in Vary. -/
def applyOrigin (res : Response) (allowOrigin : Option (List String))
    (origin : String) : Response :=
  match allowOrigin with
  | none =>
    { res with
      headers := headersSet res.headers "Access-Control-Allow-Origin" "*" }
  | some list =>
    if list.contains origin then
      applyVaryAppend
        { res with
          headers :=
            headersSet res.headers "Access-Control-Allow-Origin" origin }
        "Origin"
    else res

/-- src/middlewares/cors.ts applyCredentials: when credentials are allowed,
downgrade a wildcard allow-origin to the literal request origin and set the
allow-credentials header. -/
def applyCredentials (res : Response) (options : CorsOptions)
    (requestOrigin : String) : Response :=
  if options.allowCredentials then
    let res1 :=
      if headersGet res.headers "Access-Control-Allow-Origin" = some "*" then
        { res with
          headers := headersSet res.headers "Access-Control-Allow-Origin"
            requestOrigin }
      else res
    { res1 with
      headers :=
        headersSet res1.headers "Access-Control-Allow-Credentials" "true" }
  else res

/-- src/middlewares/cors.ts applyMethods: emit the allow-methods list. -/
def applyMethods (res : Response) (allowMethods : List String) : Response :=
  { res with
    headers := headersSet res.headers "Access-Control-Allow-Methods"
      (String.intercalate "," allowMethods) }

/-- src/middlewares/cors.ts applyHeaders: mirror the requested headers when
no allow-list is configured (recording Vary), otherwise emit the list. -/
def applyHeaders (res : Response) (options : CorsOptions) (req : Request) :
    Response :=
  let requestHeaders :=
    (headersGet req.headers "Access-Control-Request-Headers").getD ""
  if requestHeaders = "" then res
  else
    match options.allowHeaders with
    | none =>
      let res1 := applyVaryAppend res "Access-Control-Request-Headers"
      { res1 with
        headers := headersSet res1.headers "Access-Control-Allow-Headers"
          requestHeaders }
    | some list =>
      { res with
        headers := headersSet res.headers "Access-Control-Allow-Headers"
          (String.intercalate "," list) }

/-- src/middlewares/cors.ts applyExposeHeaders. -/
def applyExposeHeaders (res : Response) (options : CorsOptions) : Response :=
  match options.exposeHeaders with
  | some list =>
    { res with
      headers := headersSet res.headers "Access-Control-Expose-Headers"
        (String.intercalate "," list) }
  | none => res

/-- src/middlewares/cors.ts applyMaxAge (a falsy maxAge emits nothing). -/
def applyMaxAge (res : Response) (options : CorsOptions) : Response :=
  if (options.maxAge.getD "") ≠ "" then
    { res with
      headers := headersSet res.headers "Access-Control-Max-Age"
        ((options.maxAge).getD "") }
  else res

/-- src/middlewares/cors.ts applyAllowPrivateNetwork. -/
def applyAllowPrivateNetwork (res : Response) (options : CorsOptions)
    (req : Request) : Response :=
  if options.allowPrivateNetwork &&
      ((headersGet req.headers "Access-Control-Request-Private-Network").getD ""
        ≠ "") then
    { res with
      headers :=
        headersSet res.headers "Access-Control-Allow-Private-Network" "true" }
  else res

/-- src/middlewares/cors.ts cors: an OPTIONS request without an
Access-Control-Request-Method header is not a preflight and is passed on
untouched; a preflight answers 204 (or decorates next() under
preflightContinue) with the full header set; every other request runs next()
and gains origin/credentials/expose-headers. -/
def cors (options : CorsOptions) : MiddlewareHandler Response :=
  let allowOrigin := options.allowOrigin
  let allowMethods := (options.allowMethods.map List.eraseDups).getD
    DEFAULT_METHODS
  fun ctx next =>
    let requestMethod := (jsToUpperCase ctx.request.method)
    let requestOrigin := (headersGet ctx.request.headers "Origin").getD ""
    if requestMethod = "OPTIONS" then
      if ((headersGet ctx.request.headers
            "Access-Control-Request-Method").getD "") = "" then
        next none
      else
        let responseE : Except Err Response :=
          if options.preflightContinue then next none
          else .ok { status := 204, headers := [("content-length", "0")] }
        responseE.map (fun response =>
          applyAllowPrivateNetwork
            (applyExposeHeaders
              (applyMaxAge
                (applyHeaders
                  (applyMethods
                    (applyCredentials
                      (applyOrigin response allowOrigin requestOrigin)
                      options requestOrigin)
                    allowMethods)
                  options ctx.request)
                options)
              options)
            options ctx.request)
    else
      (next none).map (fun response =>
        applyExposeHeaders
          (applyCredentials (applyOrigin response allowOrigin requestOrigin)
            options requestOrigin)
          options)

/-- A tracing middleware: records its label in front of the downstream
trace, invoking next with no replacement context. Instantiates the
MiddlewareHandler contract at the trace result type. -/
def labelMw (s : String) : MiddlewareHandler (List String) :=
  fun _ctx next => (next none).map (fun t => s :: t)

/-- A middleware that invokes next with no argument (undefined). -/
def passThruMw {ρ : Type} : MiddlewareHandler ρ :=
  fun _ctx next => next none

/-- A middleware that invokes next with an explicit replacement context. -/
def replaceCtxMw {ρ : Type} (c : Context) : MiddlewareHandler ρ :=
  fun _ctx next => next (some c)

/-- A middleware that throws. -/
def throwMw {ρ : Type} (e : Err) : MiddlewareHandler ρ :=
  fun _ctx _next => .error e

/-- Concrete response used by witnesses. -/
def respA : Response := { status := 200, body := some "A" }

/-- Concrete response used by witnesses. -/
def respB : Response := { status := 200, body := some "B" }

/-- A router with no routes and the default error handler. -/
def emptyRouter : Router Response := { errorHandler := defaultErrorHandler }

/-- A router with two overlapping GET entries for pathname /x; the first
answers respA, the second respB. -/
def twoEntryRouter : Router Response :=
  { errorHandler := defaultErrorHandler,
    routes := [("GET",
      [⟨⟨none, some "/x"⟩, fun _ => .ok respA, []⟩,
       ⟨⟨none, some "/x"⟩, fun _ => .ok respB, []⟩])] }

/-- Concrete GET request for /x used by witnesses. -/
def reqX : Request := { method := "GET", url := ⟨"example.local", "/x"⟩ }

/-- The failing input of the domain fan-out claim: a domain-less group in
which a route is registered first (the registration mutates the live frame
through the domains alias in normalizePatterns), followed by a nested group
listing the single hostname a.test with a route for /x. -/
def fanoutBugRouter : Router Response :=
  emptyRouter.groupRun {}
    (fun r1 =>
      (r1.get (.str "/a") (fun _ => .ok respA)).groupRun
        { domain := ["a.test"] }
        (fun r2 => r2.get (.str "/x") (fun _ => .ok respB)))

/-! Lemmas and claim theorems. -/

lemma scanRoutes_first {ρ : Type} (entries : List (RouteEntry ρ)) (url : Url) :
    ∀ (i : Nat) (hi : i < entries.length)
      (_ : ∀ j (hj : j < i),
        ((entries.get ⟨j, Nat.lt_trans hj hi⟩).pattern.exec url) = none)
      (m : URLPatternResult)
      (_ : (entries.get ⟨i, hi⟩).pattern.exec url = some m),
      scanRoutes entries url = some (entries.get ⟨i, hi⟩, m) := by
  induction entries with
  | nil =>
    intro i hi
    exact absurd hi (by simp)
  | cons e rest ih =>
    intro i hi hbefore m hmatch
    cases i with
    | zero =>
      have hm : e.pattern.exec url = some m := hmatch
      unfold scanRoutes
      rw [hm]
      exact rfl
    | succ k =>
      have h0 : e.pattern.exec url = none := hbefore 0 (Nat.succ_pos k)
      unfold scanRoutes
      rw [h0]
      exact ih k (Nat.lt_of_succ_lt_succ hi)
        (fun j hj => hbefore (j + 1) (Nat.succ_lt_succ hj)) m hmatch

/-- C1: if two or more RouteEntry patterns registered under the request's
method both match the request's URL, dispatch invokes the entry registered
earliest: the scan walks the method's list in registration order and the
first structurally matching entry wins. -/
theorem dispatch_first_registered_entry_wins {ρ : Type} (r : Router ρ)
    (request : Request) (i : Nat)
    (hi : i < (routesGet r.routes (jsToUpperCase request.method)).length)
    (hbefore : ∀ j (hj : j < i),
      (((routesGet r.routes (jsToUpperCase request.method)).get
        ⟨j, Nat.lt_trans hj hi⟩).pattern.exec request.url) = none)
    (m : URLPatternResult)
    (hmatch : ((routesGet r.routes (jsToUpperCase request.method)).get
      ⟨i, hi⟩).pattern.exec request.url = some m) :
    r.dispatchTry request =
      execute
        ((routesGet r.routes (jsToUpperCase request.method)).get ⟨i, hi⟩).middlewares
        ((routesGet r.routes (jsToUpperCase request.method)).get ⟨i, hi⟩).handler
        ⟨m, request⟩ := by
  have h := scanRoutes_first (routesGet r.routes (jsToUpperCase request.method))
    request.url i hi hbefore m hmatch
  simp only [Router.dispatchTry, h]

/-- Applies C1 to a router holding two overlapping GET patterns for /x: the
first registered entry answers. -/
theorem dispatch_first_registered_entry_wins_witness :
    twoEntryRouter.dispatchTry reqX = .ok respA := by
  have h := dispatch_first_registered_entry_wins twoEntryRouter reqX 0 (by decide)
    (fun j hj => absurd hj (Nat.not_lt_zero j))
    ⟨⟨"example.local", "/x"⟩⟩ (by decide)
  exact h.trans rfl

/-- C2: dispatch always resolves to a value of the response type; a
successful pipeline's value is returned as is, any value thrown during
method lookup, pattern scanning or pipeline execution is caught exactly once
and handed to the configured error handler, whose return value becomes the
final response, and an unmatched request reaches the handler as the
route-not-found condition. -/
theorem dispatch_error_boundary {ρ : Type} (r : Router ρ) (request : Request) :
    (∀ res, r.dispatchTry request = .ok res → r.dispatch request = res) ∧
    (∀ e, r.dispatchTry request = .error e →
      r.dispatch request = r.errorHandler e) ∧
    (scanRoutes (routesGet r.routes (jsToUpperCase request.method)) request.url = none →
      r.dispatch request = r.errorHandler (.routeNotFound "Not Found")) := by
  refine ⟨?_, ?_, ?_⟩
  · intro res h
    unfold Router.dispatch
    rw [h]
  · intro e h
    unfold Router.dispatch
    rw [h]
  · intro h
    unfold Router.dispatch Router.dispatchTry
    simp only [h]

/-- Applies C2 to the empty router: the route-not-found condition reaches
the default handler and produces the 404 response. -/
theorem dispatch_error_boundary_witness :
    emptyRouter.dispatch reqX = { status := 404, body := some "Not Found" } := by
  have h := dispatch_error_boundary emptyRouter reqX
  exact (h.2.2 (by rfl)).trans (by rfl)

/-- The CEX for C3: a callback that throws leaves the pushed frame on the
scope stack, so the stack after the group call differs from the stack
before it. -/
theorem group_frame_not_popped_on_throw_cex :
    (emptyRouter.group {} (fun s => (s, some (Err.other "boom")))).1.groups ≠
      emptyRouter.groups := by
  intro h
  have hlen := congrArg List.length h
  simp [emptyRouter, Router.group, Router.pushGroup] at hlen

/-- C3 amended: Router.group pushes a frame and pops it only when the
registration callback returns normally; when the callback throws, the
exception propagates and the pushed frame is not popped. -/
theorem group_pops_only_on_normal_return {ρ : Type} (r : Router ρ)
    (params : GroupParams ρ)
    (handler : Router ρ → Router ρ × Option Err) :
    ((r.pushGroup params).groups.length = r.groups.length + 1) ∧
    (∀ r2, handler (r.pushGroup params) = (r2, none) →
      r.group params handler = ({ r2 with groups := r2.groups.dropLast }, none)) ∧
    (∀ r2 e, handler (r.pushGroup params) = (r2, some e) →
      r.group params handler = (r2, some e)) := by
  refine ⟨?_, ?_, ?_⟩
  · simp [Router.pushGroup]
  · intro r2 h
    simp only [Router.group, h]
  · intro r2 e h
    simp only [Router.group, h]

/-- Applies C3's amended theorem to a throwing callback on the empty router:
the scope stack still holds the pushed frame afterwards. -/
theorem group_pops_only_on_normal_return_witness :
    (emptyRouter.group {} (fun s => (s, some (Err.other "boom")))).1.groups.length
      = 1 := by
  have h := group_pops_only_on_normal_return emptyRouter {}
    (fun s => (s, some (Err.other "boom")))
  have h2 := h.2.2 (emptyRouter.pushGroup {}) (Err.other "boom") rfl
  calc (emptyRouter.group {} (fun s => (s, some (Err.other "boom")))).1.groups.length
      = (emptyRouter.pushGroup {}).groups.length := by rw [h2]
    _ = emptyRouter.groups.length + 1 := h.1
    _ = 1 := rfl

lemma scanRoutes_eq_none {ρ : Type} (entries : List (RouteEntry ρ)) (url : Url)
    (h : ∀ e ∈ entries, e.pattern.exec url = none) :
    scanRoutes entries url = none := by
  induction entries with
  | nil => rfl
  | cons e rest ih =>
    unfold scanRoutes
    rw [h e (List.mem_cons_self e rest)]
    exact ih (fun e' he' => h e' (List.mem_cons_of_mem e he'))

/-- C8: when no RouteEntry matches the request's method and URL (an empty
router included) and the error handler is the default one, dispatch yields
status 404 with body Not Found. -/
theorem unmatched_request_gets_404 (r : Router Response) (request : Request)
    (heh : r.errorHandler = defaultErrorHandler)
    (hnone : ∀ e ∈ routesGet r.routes (jsToUpperCase request.method),
      e.pattern.exec request.url = none) :
    r.dispatch request = { status := 404, body := some "Not Found" } := by
  have hscan := scanRoutes_eq_none _ _ hnone
  unfold Router.dispatch Router.dispatchTry
  simp only [hscan, heh]
  rfl

/-- Applies C8 to the empty router at a concrete request. -/
theorem unmatched_request_gets_404_witness :
    emptyRouter.dispatch reqX = { status := 404, body := some "Not Found" } :=
  unmatched_request_gets_404 emptyRouter reqX rfl
    (fun e he => absurd he (List.not_mem_nil e))

/-- C10: in the pipeline built by dispatch, a middleware that invokes next
with no argument hands the remainder of the chain exactly the context it
itself received (a chain of such middlewares delivers the original context
to the terminal handler unchanged), and the downstream context differs only
when next is invoked with an explicit replacement context. -/
theorem next_without_argument_reuses_context {ρ : Type}
    (rest : List (MiddlewareHandler ρ)) (fn : RouteHandler ρ)
    (ctx ctx2 : Context) (k : Nat) :
    (execute (List.replicate k (passThruMw (ρ := Context)))
      (fun c => .ok c) ctx = .ok ctx) ∧
    (execute (passThruMw :: rest) fn ctx = execute rest fn ctx) ∧
    (execute (replaceCtxMw ctx2 :: rest) fn ctx = execute rest fn ctx2) := by
  refine ⟨?_, ?_, ?_⟩
  · induction k with
    | zero => rfl
    | succ n ih => simpa [List.replicate_succ, execute, passThruMw] using ih
  · simp [execute, passThruMw]
  · simp [execute, replaceCtxMw]

lemma routesGet_routesAppend {ρ : Type}
    (routes : List (String × List (RouteEntry ρ))) (M M' : String)
    (e : RouteEntry ρ) :
    routesGet (routesAppend routes M e) M' =
      if M = M' then routesGet routes M' ++ [e] else routesGet routes M' := by
  induction routes with
  | nil =>
    simp only [routesAppend, routesGet]
    by_cases h : M = M'
    · simp [h]
    · simp [h]
  | cons kv rest ih =>
    obtain ⟨k, v⟩ := kv
    simp only [routesAppend]
    by_cases hk : k = M
    · subst hk
      simp only [if_pos rfl, routesGet]
      by_cases h' : k = M' <;> simp [h']
    · simp only [if_neg hk, routesGet]
      by_cases h' : k = M'
      · subst h'
        have hne : ¬ (M = k) := fun hh => hk hh.symm
        simp [hne]
      · simp [h', ih]

lemma routesGet_foldl_patterns {ρ : Type} (patterns : List URLPattern)
    (r : Router ρ) (M M' : String) (fn : RouteHandler ρ)
    (chain : List (MiddlewareHandler ρ)) :
    routesGet ((patterns.foldl (fun acc2 p =>
        { acc2 with routes := routesAppend acc2.routes M ⟨p, fn, chain⟩ })
      r).routes) M' =
      if M = M' then
        routesGet r.routes M' ++ patterns.map (fun p => ⟨p, fn, chain⟩)
      else routesGet r.routes M' := by
  induction patterns generalizing r with
  | nil =>
    by_cases h : M = M' <;> simp [h]
  | cons p ps ih =>
    simp only [List.foldl_cons]
    rw [ih]
    by_cases h : M = M'
    · simp [h, routesGet_routesAppend]
    · simp [h, routesGet_routesAppend]

lemma addRoute_single_method {ρ : Type} (r : Router ρ) (m : String)
    (pat : PathPattern) (mws : List (MiddlewareHandler ρ))
    (fn : RouteHandler ρ) (M' : String) :
    routesGet (r.addRoute ⟨[m], pat, mws⟩ fn).routes M' =
      if jsToUpperCase (jsTrim m) = M' then
        routesGet r.routes M' ++
          (normalizePatterns r.groups.getLast? pat).1.map
            (fun p => ⟨p, fn, r.definedMiddlewares ++
              ((r.groups.getLast?.map Group.middlewares).getD []) ++ mws⟩)
      else routesGet r.routes M' := by
  simp only [Router.addRoute, List.foldl_cons, List.foldl_nil]
  rw [routesGet_foldl_patterns]
  have hbase : (match (normalizePatterns r.groups.getLast? pat).2 with
      | some g2 => { r with groups := r.groups.dropLast ++ [g2] }
      | none => r).routes = r.routes := by
    cases (normalizePatterns r.groups.getLast? pat).2 <;> rfl
  rw [hbase]

/-- C4: the chain recorded for a registered route is the concatenation
globalMiddlewares ++ scopeMiddlewares ++ routeMiddlewares, and executed on a
dispatch the chain wraps the handler with the global middleware outermost:
tracing middlewares A, B, C around a handler H observe the order
A, B, C, H, both for the bare pipeline and for a full dispatch of a route
registered with use(A), a group middleware B and a route middleware C. -/
theorem middleware_chain_global_scope_route_order {ρ : Type} (r : Router ρ)
    (m : String) (pat : PathPattern) (mws : List (MiddlewareHandler ρ))
    (fn : RouteHandler ρ) (a b c hBody : String) (ctx : Context) :
    (routesGet (r.addRoute ⟨[m], pat, mws⟩ fn).routes
        (jsToUpperCase (jsTrim m)) =
      routesGet r.routes (jsToUpperCase (jsTrim m)) ++
        (normalizePatterns r.groups.getLast? pat).1.map
          (fun p => ⟨p, fn, r.definedMiddlewares ++
            ((r.groups.getLast?.map Group.middlewares).getD []) ++ mws⟩)) ∧
    (execute [labelMw a, labelMw b, labelMw c]
      (fun _ => .ok [hBody]) ctx = .ok [a, b, c, hBody]) ∧
    ((((({ errorHandler := fun _ => [] } : Router (List String)).use
          [labelMw "A"]).groupRun { middleware := [labelMw "B"] }
          (fun s => s.addRoute ⟨["GET"], .str "/x", [labelMw "C"]⟩
            (fun _ => .ok ["H"]))).dispatch
        ⟨"GET", ⟨"example.local", "/x"⟩, []⟩) = ["A", "B", "C", "H"]) := by
  refine ⟨?_, ?_, ?_⟩
  · rw [addRoute_single_method]
    simp
  · simp [execute, labelMw, Except.map]
  · decide

/-- C5: a RouteEntry's chain is frozen at registration: use after the fact
changes no part of the route table (so no registered entry's chain), while a
route registered after the use call records the newly added global
middleware, placed in the global section that precedes any group or
route-specific middleware. -/
theorem use_is_not_retroactive {ρ : Type} (r : Router ρ)
    (ms : List (MiddlewareHandler ρ)) (m : String) (pat : PathPattern)
    (mws : List (MiddlewareHandler ρ)) (fn : RouteHandler ρ) :
    ((r.use ms).routes = r.routes) ∧
    ((r.use ms).definedMiddlewares = r.definedMiddlewares ++ ms) ∧
    (routesGet ((r.use ms).addRoute ⟨[m], pat, mws⟩ fn).routes
        (jsToUpperCase (jsTrim m)) =
      routesGet r.routes (jsToUpperCase (jsTrim m)) ++
        (normalizePatterns r.groups.getLast? pat).1.map
          (fun p => ⟨p, fn, (r.definedMiddlewares ++ ms) ++
            ((r.groups.getLast?.map Group.middlewares).getD []) ++ mws⟩)) := by
  refine ⟨rfl, rfl, ?_⟩
  rw [addRoute_single_method]
  simp [Router.use]

lemma dropWhile_append_split {α : Type} [DecidableEq α] (p : α → Bool)
    (xs ys : List α) :
    (xs ++ ys).dropWhile p =
      if xs.dropWhile p = [] then ys.dropWhile p else xs.dropWhile p ++ ys := by
  induction xs with
  | nil => simp
  | cons x xs ih =>
    by_cases hx : p x
    · simpa [List.dropWhile_cons_of_pos hx] using ih
    · simp [List.dropWhile_cons_of_neg hx]

lemma dropWhile_head_false {α : Type} (p : α → Bool) (l : List α) (c : α)
    (cs : List α) (h : l.dropWhile p = c :: cs) : p c = false := by
  induction l with
  | nil => simp at h
  | cons x xs ih =>
    by_cases hx : p x
    · rw [List.dropWhile_cons_of_pos hx] at h
      exact ih h
    · rw [List.dropWhile_cons_of_neg hx] at h
      injection h with h1 _
      subst h1
      simpa using hx

lemma trimL_append (xs ys : List Char) :
    trimL (xs ++ ys) = if trimL xs = [] then trimL ys else trimL xs ++ ys :=
  dropWhile_append_split isSlash xs ys

lemma trimR_append (xs ys : List Char) :
    trimR (xs ++ ys) = if trimR ys = [] then trimR xs else xs ++ trimR ys := by
  unfold trimR
  rw [List.reverse_append, dropWhile_append_split]
  by_cases h : ys.reverse.dropWhile isSlash = []
  · have h2 : (ys.reverse.dropWhile isSlash).reverse = ([] : List Char) := by
      rw [h]
      rfl
    rw [if_pos h, if_pos h2]
  · have h2 : ¬ (ys.reverse.dropWhile isSlash).reverse = ([] : List Char) := by
      simpa using h
    rw [if_neg h, if_neg h2, List.reverse_append, List.reverse_reverse]

lemma trimL_replicate (m : Nat) : trimL (List.replicate m '/') = [] := by
  induction m with
  | zero => rfl
  | succ k ih =>
    rw [trimL, List.replicate_succ,
      List.dropWhile_cons_of_pos (show isSlash '/' = true from rfl)]
    exact ih

lemma trimR_replicate (n : Nat) : trimR (List.replicate n '/') = [] := by
  have h := trimL_replicate n
  unfold trimL at h
  unfold trimR
  rw [List.reverse_replicate, h, List.reverse_nil]

lemma trimL_cons_slash (w : List Char) : trimL ('/' :: w) = trimL w := by
  simp [trimL, isSlash]

lemma trimL_idem (l : List Char) : trimL (trimL l) = trimL l := by
  unfold trimL
  exact List.dropWhile_idempotent isSlash l

lemma trimL_replicate_append (m : Nat) (x : List Char) :
    trimL (List.replicate m '/' ++ x) = trimL x := by
  rw [trimL_append, if_pos (trimL_replicate m)]

lemma trimR_all_slash (l : List Char) (h : ∀ x ∈ trimR l, isSlash x) :
    trimR l = [] := by
  cases hd : l.reverse.dropWhile isSlash with
  | nil => simp [trimR, hd]
  | cons c cs =>
    have hc : isSlash c = false := dropWhile_head_false isSlash l.reverse c cs hd
    have hmem : c ∈ trimR l := by
      simp [trimR, hd]
    exact absurd (h c hmem) (by simp [hc])

lemma trimL_join_ne_nil (s t : List Char) (hs : trimR s ≠ []) :
    trimL (trimR s ++ '/' :: trimL t) ≠ [] := by
  intro h
  rw [trimL, List.dropWhile_eq_nil_iff] at h
  have hall : ∀ x ∈ trimR s, isSlash x :=
    fun x hx => h x (List.mem_append_left _ hx)
  exact hs (trimR_all_slash s hall)

lemma trim_join_pad (m1 n1 m2 n2 : Nat) (s t : List Char) :
    trimR (trimL (trimR (List.replicate m1 '/' ++ s ++ List.replicate n1 '/') ++
        '/' :: trimL (List.replicate m2 '/' ++ t ++ List.replicate n2 '/'))) =
      trimR (trimL (trimR s ++ '/' :: trimL t)) := by
  have hL2 : trimL (List.replicate m2 '/' ++ t ++ List.replicate n2 '/') =
      trimL (t ++ List.replicate n2 '/') := by
    rw [List.append_assoc, trimL_replicate_append]
  have hR1 : trimR (List.replicate m1 '/' ++ s ++ List.replicate n1 '/') =
      trimR (List.replicate m1 '/' ++ s) := by
    rw [trimR_append, if_pos (trimR_replicate n1)]
  have hA : trimR (List.replicate m1 '/' ++ s) =
      if trimR s = [] then [] else List.replicate m1 '/' ++ trimR s := by
    rw [trimR_append, trimR_replicate]
  have hB : trimL (t ++ List.replicate n2 '/') =
      if trimL t = [] then [] else trimL t ++ List.replicate n2 '/' := by
    rw [trimL_append, trimL_replicate]
  rw [hL2, hR1, hA, hB]
  by_cases hs : trimR s = [] <;> by_cases ht : trimL t = []
  · simp [hs, ht]
  · rw [if_pos hs, if_neg ht, hs, List.nil_append, List.nil_append,
      trimL_cons_slash, trimL_cons_slash,
      show trimL (trimL t ++ List.replicate n2 '/') =
          trimL t ++ List.replicate n2 '/' from by
        rw [trimL_append, trimL_idem, if_neg ht],
      show trimR (trimL t ++ List.replicate n2 '/') = trimR (trimL t) from by
        rw [trimR_append, if_pos (trimR_replicate n2)],
      trimL_idem]
  · rw [if_neg hs, if_pos ht, ht, List.append_assoc, trimL_replicate_append]
  · rw [if_neg hs, if_neg ht, List.append_assoc, trimL_replicate_append,
      ← List.cons_append, ← List.append_assoc,
      show trimL ((trimR s ++ '/' :: trimL t) ++ List.replicate n2 '/') =
          trimL (trimR s ++ '/' :: trimL t) ++ List.replicate n2 '/' from by
        rw [trimL_append, if_neg (trimL_join_ne_nil s t hs)],
      trimR_append, if_pos (trimR_replicate n2)]

lemma stringDataExt (a b : String) (h : a.data = b.data) : a = b := by
  cases a
  cases b
  cases h
  rfl

lemma slashPad_data (m n : Nat) (s : String) :
    (slashPad m s n).data =
      List.replicate m '/' ++ s.data ++ List.replicate n '/' := by
  simp [slashPad]

lemma joinPath_data (s t : String) :
    (joinPath s t).data =
      '/' :: trimR (trimL (trimR s.data ++ '/' :: trimL t.data)) := by
  simp [joinPath, normalizePath, dropSlashesLeft, dropSlashesRight]

lemma joinPath_slashPad (m1 n1 m2 n2 : Nat) (s t : String) :
    joinPath (slashPad m1 s n1) (slashPad m2 t n2) = joinPath s t := by
  apply stringDataExt
  rw [joinPath_data, joinPath_data, slashPad_data, slashPad_data]
  rw [trim_join_pad]

lemma slashPad_zero (s : String) : slashPad 0 s 0 = s := by
  apply stringDataExt
  simp [slashPad]

lemma joinPath_slashPad_right (m n : Nat) (s t : String) :
    joinPath s (slashPad m t n) = joinPath s t := by
  have h := joinPath_slashPad 0 0 m n s t
  rwa [slashPad_zero] at h

lemma joinPath_slashPad_left (m n : Nat) (s t : String) :
    joinPath (slashPad m s n) t = joinPath s t := by
  have h := joinPath_slashPad m n 0 0 s t
  rwa [slashPad_zero] at h

/-- C6: the effective pattern path is the scope path and the route path
joined with exactly one separating slash regardless of how many
leading/trailing slashes either side carries; nested group scope paths
compose root-to-leaf, so a route registered inside the api group inside its
v1 subgroup with path users gets pattern pathname /api/v1/users and matches
exactly that pathname, for every slash-padding of the three fragments. -/
theorem scope_prefix_composition (m1 n1 m2 n2 m3 n3 : Nat) (s t : String)
    (fn : RouteHandler Response) (host pn : String) :
    (joinPath (slashPad m1 s n1) (slashPad m2 t n2) = joinPath s t) ∧
    (routesGet
        ((emptyRouter.groupRun { basePath := some (slashPad m1 "api" n1) }
          (fun r1 => r1.groupRun { basePath := some (slashPad m2 "v1" n2) }
            (fun r2 => r2.get (.str (slashPad m3 "users" n3)) fn))).routes)
      "GET" = [⟨⟨none, some "/api/v1/users"⟩, fn, []⟩]) ∧
    ((URLPattern.mk none (some "/api/v1/users")).exec ⟨host, pn⟩ =
      if pn = "/api/v1/users" then some ⟨⟨host, pn⟩⟩ else none) := by
  refine ⟨joinPath_slashPad m1 n1 m2 n2 s t, ?_, ?_⟩
  · have e1 : joinPath "" (slashPad m1 "api" n1) = "/api" := by
      rw [joinPath_slashPad_right]
      decide
    have e2 : joinPath "/api" (slashPad m2 "v1" n2) = "/api/v1" := by
      rw [joinPath_slashPad_right]
      decide
    have e3 : joinPath "/api/v1" (slashPad m3 "users" n3) = "/api/v1/users" := by
      rw [joinPath_slashPad_right]
      decide
    have hGET : jsToUpperCase (jsTrim "GET") = "GET" := by decide
    have hHEAD : jsToUpperCase (jsTrim "HEAD") = "HEAD" := by decide
    have hne : ¬ (("GET" : String) = "HEAD") := by decide
    have hpre : ¬ (("/api/v1" : String) = "") := by decide
    simp [Router.groupRun, Router.group, Router.pushGroup, Router.get,
      Router.addRoute, emptyRouter, normalizePatterns, routesGet, routesAppend,
      e1, e2, e3, hGET, hHEAD, hne, hpre]
  · by_cases h : pn = "/api/v1/users"
    · simp [URLPattern.exec, h]
    · simp [URLPattern.exec, h, Ne.symm h]

/-- C7: the code evaluated at the failing input. After a route is
registered inside a domain-less group, the frame holds the spurious
null pushed through the domains alias, so a nested group listing the single
hostname a.test registers its /x route as TWO entries, the first with no
hostname constraint; a request for /x at the unlisted hostname c.test then
matches that wildcard entry and receives its handler response, where the
claim promises one entry per hostname and no match for unlisted hosts. -/
theorem domain_fanout_code_bug :
    ((routesGet fanoutBugRouter.routes "GET").map RouteEntry.pattern =
      [⟨none, some "/a"⟩, ⟨none, some "/x"⟩, ⟨some "a.test", some "/x"⟩]) ∧
    fanoutBugRouter.dispatch ⟨"GET", ⟨"c.test", "/x"⟩, []⟩ = respB := by
  constructor
  · decide
  · decide

lemma headersGet_map_set_self (hs : List (String × String))
    (name value : String)
    (hany : hs.any (fun kv => jsToLowerCase kv.1 == jsToLowerCase name) = true) :
    headersGet (hs.map (fun kv =>
        if jsToLowerCase kv.1 == jsToLowerCase name then (kv.1, value)
        else kv)) name = some value := by
  induction hs with
  | nil => simp at hany
  | cons kv rest ih =>
    obtain ⟨k, v⟩ := kv
    simp only [List.map_cons]
    by_cases hc : jsToLowerCase k = jsToLowerCase name
    · rw [if_pos (by simpa using hc)]
      unfold headersGet
      rw [List.find?_cons_of_pos _ (by simpa using hc)]
      rfl
    · rw [if_neg (by simpa using hc)]
      unfold headersGet
      rw [List.find?_cons_of_neg _ (by simpa using hc)]
      have hany2 : rest.any
          (fun kv => jsToLowerCase kv.1 == jsToLowerCase name) = true := by
        simpa [hc] using hany
      exact ih hany2

lemma headersGet_append_self (hs : List (String × String))
    (name value : String)
    (hnone : ¬ hs.any
      (fun kv => jsToLowerCase kv.1 == jsToLowerCase name) = true) :
    headersGet (hs ++ [(name, value)]) name = some value := by
  induction hs with
  | nil =>
    unfold headersGet
    rw [List.nil_append, List.find?_cons_of_pos _ (by simp)]
    rfl
  | cons kv rest ih =>
    obtain ⟨k, v⟩ := kv
    have hc : ¬ jsToLowerCase k = jsToLowerCase name := by
      intro hx
      exact hnone (by simp [hx])
    have hrest : ¬ rest.any
        (fun kv => jsToLowerCase kv.1 == jsToLowerCase name) = true := by
      intro hx
      exact hnone (by simp [hx])
    unfold headersGet
    rw [List.cons_append, List.find?_cons_of_neg _ (by simpa using hc)]
    exact ih hrest

lemma headersGet_set_self (hs : List (String × String)) (name value : String) :
    headersGet (headersSet hs name value) name = some value := by
  unfold headersSet
  by_cases hany :
      hs.any (fun kv => jsToLowerCase kv.1 == jsToLowerCase name) = true
  · rw [if_pos hany]
    exact headersGet_map_set_self hs name value hany
  · rw [if_neg hany]
    exact headersGet_append_self hs name value hany

lemma headersGet_map_set (rest : List (String × String))
    (name value other : String)
    (hdiff : ¬ jsToLowerCase other = jsToLowerCase name) :
    headersGet (rest.map (fun kv =>
        if jsToLowerCase kv.1 == jsToLowerCase name then (kv.1, value)
        else kv)) other
      = headersGet rest other := by
  induction rest with
  | nil => rfl
  | cons kv rest ih =>
    obtain ⟨k, v⟩ := kv
    simp only [List.map_cons]
    by_cases hc : jsToLowerCase k = jsToLowerCase name
    · have hco : ¬ jsToLowerCase k = jsToLowerCase other := by
        intro hx
        exact hdiff (hx.symm.trans hc)
      rw [if_pos (by simpa using hc)]
      unfold headersGet
      rw [List.find?_cons_of_neg _ (by simpa using hco),
        List.find?_cons_of_neg _ (by simpa using hco)]
      exact ih
    · rw [if_neg (by simpa using hc)]
      by_cases hko : jsToLowerCase k = jsToLowerCase other
      · unfold headersGet
        rw [List.find?_cons_of_pos _ (by simpa using hko),
          List.find?_cons_of_pos _ (by simpa using hko)]
      · unfold headersGet
        rw [List.find?_cons_of_neg _ (by simpa using hko),
          List.find?_cons_of_neg _ (by simpa using hko)]
        exact ih

lemma headersGet_append_other (hs : List (String × String))
    (name value other : String)
    (hdiff : ¬ jsToLowerCase other = jsToLowerCase name) :
    headersGet (hs ++ [(name, value)]) other = headersGet hs other := by
  induction hs with
  | nil =>
    unfold headersGet
    rw [List.nil_append, List.find?_cons_of_neg _
      (by simp only [beq_iff_eq]; exact fun hx => hdiff hx.symm)]
  | cons kv rest ih =>
    obtain ⟨k, v⟩ := kv
    unfold headersGet
    rw [List.cons_append]
    by_cases hko : jsToLowerCase k = jsToLowerCase other
    · rw [List.find?_cons_of_pos _ (by simpa using hko),
        List.find?_cons_of_pos _ (by simpa using hko)]
    · rw [List.find?_cons_of_neg _ (by simpa using hko),
        List.find?_cons_of_neg _ (by simpa using hko)]
      exact ih

lemma headersGet_set_ne (hs : List (String × String))
    (name value other : String)
    (hdiff : ¬ jsToLowerCase other = jsToLowerCase name) :
    headersGet (headersSet hs name value) other = headersGet hs other := by
  unfold headersSet
  by_cases hany :
      hs.any (fun kv => jsToLowerCase kv.1 == jsToLowerCase name) = true
  · rw [if_pos hany]
    exact headersGet_map_set hs name value other hdiff
  · rw [if_neg hany]
    exact headersGet_append_other hs name value other hdiff

lemma headersGet_applyExposeHeaders (r : Response) (opts : CorsOptions)
    (nm : String)
    (hd : ¬ jsToLowerCase nm = jsToLowerCase "Access-Control-Expose-Headers") :
    headersGet (applyExposeHeaders r opts).headers nm =
      headersGet r.headers nm := by
  unfold applyExposeHeaders
  cases opts.exposeHeaders with
  | none => rfl
  | some l => exact headersGet_set_ne _ _ _ _ hd

lemma applyCredentials_origin (res : Response) (opts : CorsOptions)
    (o : String) (hcred : opts.allowCredentials = true)
    (hstar : headersGet res.headers "Access-Control-Allow-Origin" = some "*") :
    headersGet (applyCredentials res opts o).headers
      "Access-Control-Allow-Origin" = some o := by
  unfold applyCredentials
  rw [hcred, if_pos rfl, if_pos hstar]
  rw [headersGet_set_ne _ _ _ _ (by decide), headersGet_set_self]

lemma applyCredentials_credentials (res : Response) (opts : CorsOptions)
    (o : String) (hcred : opts.allowCredentials = true) :
    headersGet (applyCredentials res opts o).headers
      "Access-Control-Allow-Credentials" = some "true" := by
  unfold applyCredentials
  rw [hcred, if_pos rfl]
  by_cases hstar :
      headersGet res.headers "Access-Control-Allow-Origin" = some "*"
  · rw [if_pos hstar, headersGet_set_self]
  · rw [if_neg hstar, headersGet_set_self]

lemma applyOrigin_none_star (res : Response) (o : String) :
    headersGet (applyOrigin res none o).headers
      "Access-Control-Allow-Origin" = some "*" := by
  unfold applyOrigin
  exact headersGet_set_self _ _ _

/-- C9: with allowCredentials configured, a computed wildcard
Access-Control-Allow-Origin is downgraded to the literal request Origin and
Access-Control-Allow-Credentials is set to true; for a non-preflight request
carrying an Origin header under the default allow-origin, the response
produced by the cors middleware carries exactly those two headers. -/
theorem cors_credentials_override (opts : CorsOptions) (res : Response)
    (o : String) (hcred : opts.allowCredentials = true) :
    (headersGet res.headers "Access-Control-Allow-Origin" = some "*" →
      headersGet (applyCredentials res opts o).headers
        "Access-Control-Allow-Origin" = some o) ∧
    (headersGet (applyCredentials res opts o).headers
      "Access-Control-Allow-Credentials" = some "true") ∧
    (∀ (req : Request) (mres : URLPatternResult) (nextRes : Response),
      opts.allowOrigin = none →
      ¬ (jsToUpperCase req.method = "OPTIONS") →
      headersGet req.headers "Origin" = some o →
      cors opts ⟨mres, req⟩ (fun _ => .ok nextRes) =
          .ok (applyExposeHeaders
            (applyCredentials (applyOrigin nextRes none o) opts o) opts) ∧
        headersGet (applyExposeHeaders
            (applyCredentials (applyOrigin nextRes none o) opts o)
            opts).headers "Access-Control-Allow-Origin" = some o ∧
        headersGet (applyExposeHeaders
            (applyCredentials (applyOrigin nextRes none o) opts o)
            opts).headers "Access-Control-Allow-Credentials" = some "true") := by
  refine ⟨applyCredentials_origin res opts o hcred,
    applyCredentials_credentials res opts o hcred, ?_⟩
  intro req mres nextRes hao hmeth horig
  refine ⟨?_, ?_, ?_⟩
  · simp only [cors, hao, horig, Option.getD_some, if_neg hmeth, Except.map]
  · rw [headersGet_applyExposeHeaders _ _ _ (by decide)]
    exact applyCredentials_origin _ opts o hcred (applyOrigin_none_star nextRes o)
  · rw [headersGet_applyExposeHeaders _ _ _ (by decide)]
    exact applyCredentials_credentials _ opts o hcred

/-- Applies C9 at concrete inputs: default allow-origin, credentials on, a
GET request with Origin https://example.com; the response carries that
origin and the credentials header. -/
theorem cors_credentials_override_witness :
    cors { allowCredentials := true }
        ⟨⟨⟨"example.com", "/"⟩⟩,
          { method := "GET", url := ⟨"example.com", "/"⟩,
            headers := [("Origin", "https://example.com")] }⟩
        (fun _ => .ok { status := 200 }) =
      .ok (applyExposeHeaders
        (applyCredentials
          (applyOrigin { status := 200 } none "https://example.com")
          { allowCredentials := true } "https://example.com")
        { allowCredentials := true }) ∧
    headersGet (applyExposeHeaders
        (applyCredentials
          (applyOrigin { status := 200 } none "https://example.com")
          { allowCredentials := true } "https://example.com")
        { allowCredentials := true }).headers
      "Access-Control-Allow-Origin" = some "https://example.com" ∧
    headersGet (applyExposeHeaders
        (applyCredentials
          (applyOrigin { status := 200 } none "https://example.com")
          { allowCredentials := true } "https://example.com")
        { allowCredentials := true }).headers
      "Access-Control-Allow-Credentials" = some "true" := by
  have h := cors_credentials_override { allowCredentials := true }
    { status := 200 } "https://example.com" rfl
  exact h.2.2
    { method := "GET", url := ⟨"example.com", "/"⟩,
      headers := [("Origin", "https://example.com")] }
    ⟨⟨"example.com", "/"⟩⟩ { status := 200 } rfl (by decide) (by decide)

end Dewy
